import Mathlib

set_option maxRecDepth 8000

/-!
Shallow embedding of the proof-of-work consensus engine of the Trinity
repository (src/pow.cpp): difficulty retargeting (GetNextWorkRequired),
proof validation (CheckProofOfWork) and chain-work accumulation
(GetBlockWork / GetBlockProof).

The 256-bit unsigned integer type uint256 is embedded as ℕ with explicit
reduction modulo 2^256 where the fixed width matters.  The compact "nBits"
codec (uint256::SetCompact / GetCompact), the consensus parameters
(chainparams) and the chain walker (chain.h) are not part of the excerpt;
they are modelled from the spec, as marked on each definition.
-/

/-- Modulus of the fixed-width 256-bit unsigned integer type (uint256). -/
def W256 : ℕ := 2 ^ 256

/-- Modelled from the spec: bit length of a 256-bit value (uint256::bits(),
uint256.h is not in the excerpt): position of the highest set bit plus one,
and 0 for 0.  Implemented with an explicit fuel argument so that it
evaluates by kernel reduction; the fuel is always sufficient because the
bit length of x is at most x. -/
def uintBitsAux : ℕ → ℕ → ℕ
  | 0, _ => 0
  | fuel + 1, x => if x = 0 then 0 else uintBitsAux fuel (x >>> 1) + 1

/-- Modelled from the spec: bit length of a 256-bit value. -/
def uintBits (x : ℕ) : ℕ := uintBitsAux x x

/-- Modelled from the spec: the magnitude produced by uint256::SetCompact
(uint256.h is not in the excerpt).  The low 3 bytes of the compact word are
the mantissa (a 23-bit magnitude below the sign bit 0x00800000) and the
high byte is a byte-length exponent; the magnitude is the mantissa shifted
into place, truncated to the fixed 256-bit width. -/
def setCompactMag (nCompact : ℕ) : ℕ :=
  if nCompact >>> 24 ≤ 3 then (nCompact &&& 0x007fffff) >>> (8 * (3 - nCompact >>> 24))
  else ((nCompact &&& 0x007fffff) <<< (8 * (nCompact >>> 24 - 3))) % W256

/-- Modelled from the spec: the negative flag of uint256::SetCompact, set
when the mantissa is nonzero and its top (sign) bit 0x00800000 is set. -/
def setCompactNeg (nCompact : ℕ) : Bool :=
  decide (nCompact &&& 0x007fffff ≠ 0) && decide (nCompact &&& 0x00800000 ≠ 0)

/-- Modelled from the spec: the overflow flag of uint256::SetCompact, set
when the nonzero mantissa shifted by the exponent would be wider than the
fixed 256-bit width. -/
def setCompactOvf (nCompact : ℕ) : Bool :=
  decide (nCompact &&& 0x007fffff ≠ 0) &&
    (decide (34 < nCompact >>> 24) ||
      (decide (0xff < nCompact &&& 0x007fffff) && decide (33 < nCompact >>> 24)) ||
      (decide (0xffff < nCompact &&& 0x007fffff) && decide (32 < nCompact >>> 24)))

/-- Modelled from the spec: the byte-length exponent chosen by
uint256::GetCompact, computed from the bit length. -/
def compactSize (x : ℕ) : ℕ := (uintBits x + 7) / 8

/-- Modelled from the spec: the unnormalized mantissa of uint256::GetCompact,
the value shifted so that its top three bytes remain. -/
def compactC0 (x : ℕ) : ℕ :=
  if compactSize x ≤ 3 then x <<< (8 * (3 - compactSize x))
  else x >>> (8 * (compactSize x - 3))

/-- Modelled from the spec: uint256::GetCompact (encoding, the inverse of
SetCompact): mantissa and byte-length exponent, renormalized when the
mantissa top bit (the sign position 0x00800000) would be set. -/
def getCompact (x : ℕ) : ℕ :=
  if compactC0 x &&& 0x00800000 ≠ 0 then (compactC0 x >>> 8) ||| ((compactSize x + 1) <<< 24)
  else compactC0 x ||| (compactSize x <<< 24)

/-- Candidate block header as read by pow.cpp: timestamp (GetBlockTime),
claimed difficulty (nBits) and proof-of-work algorithm id (GetAlgo). -/
structure CBlockHeader where
  nTime : ℕ
  nBits : ℕ
  nAlgo : ℕ

/-- Block-index node: height, timestamp, encoded difficulty, algorithm id
and the parent link (none only past genesis). -/
inductive CBlockIndex : Type where
  | node (nHeight : ℕ) (nTime : ℕ) (nBits : ℕ) (nAlgo : ℕ) (pprev : Option CBlockIndex)

/-- Height of a block-index node. -/
def CBlockIndex.nHeight : CBlockIndex → ℕ
  | .node h _ _ _ _ => h

/-- Timestamp of a block-index node (GetBlockTime). -/
def CBlockIndex.nTime : CBlockIndex → ℕ
  | .node _ t _ _ _ => t

/-- Encoded difficulty of a block-index node. -/
def CBlockIndex.nBits : CBlockIndex → ℕ
  | .node _ _ b _ _ => b

/-- Algorithm id of a block-index node. -/
def CBlockIndex.nAlgo : CBlockIndex → ℕ
  | .node _ _ _ a _ => a

/-- Parent link of a block-index node. -/
def CBlockIndex.pprev : CBlockIndex → Option CBlockIndex
  | .node _ _ _ _ p => p

/-- Modelled from the spec: the consensus parameters consumed by pow.cpp
through Params() (chainparams is not in the excerpt).  The per-algorithm
proof-of-work limit is the decoded 256-bit target. -/
structure ChainParams where
  proofOfWorkLimit : ℕ → ℕ
  targetTimespan : ℤ
  targetSpacing : ℤ
  interval : ℕ
  allowMinDifficultyBlocks : Bool
  skipProofOfWorkCheck : Bool
  maxAdjustUpV1 : ℤ
  maxAdjustUpV2 : ℤ
  maxAdjustDownV1 : ℤ
  maxAdjustDownV2 : ℤ
  blockDiffAdjustV2 : ℕ

/-- Modelled from the spec: CChain::GetLastBlockIndexForAlgo (chain is not
in the excerpt): nearest ancestor of the node (inclusive) whose algorithm
id equals algo, or none if no such ancestor exists. -/
def lastBlockForAlgo : CBlockIndex → ℕ → Option CBlockIndex
  | .node h t b a p, algo =>
    if a = algo then some (.node h t b a p)
    else
      match p with
      | none => none
      | some q => lastBlockForAlgo q algo

/-- Modelled from the spec: the chain walker lifted to a possibly-null
starting node. -/
def GetLastBlockIndexForAlgo : Option CBlockIndex → ℕ → Option CBlockIndex
  | none, _ => none
  | some pindex, algo => lastBlockForAlgo pindex algo

/-- The testnet minimum-difficulty walk of GetNextWorkRequired (pow.cpp
lines 38-43): step to the parent while a parent exists, the height is not
a multiple of the retarget interval, and the bits equal the compact
encoding of the limit; return the node where the walk stops. -/
def minDiffWalk (nInterval : ℕ) (limitCompact : ℕ) : CBlockIndex → CBlockIndex
  | .node h t b a p =>
    match p with
    | none => .node h t b a none
    | some q =>
      if h % nInterval ≠ 0 ∧ b = limitCompact then minDiffWalk nInterval limitCompact q
      else .node h t b a (some q)

/-- The window walk of GetNextWorkRequired (pow.cpp lines 51-54): from the
current candidate for pindexFirst, take the given number of further
same-algorithm steps backward, stopping with none as soon as no node is
found. -/
def windowWalk (algo : ℕ) : Option CBlockIndex → ℕ → Option CBlockIndex
  | pf, 0 => pf
  | none, _ + 1 => none
  | some b, i + 1 => windowWalk algo (GetLastBlockIndexForAlgo b.pprev algo) i

/-- Version-gated maximum downward adjustment (pow.cpp line 61): V2 when
lastHeight + 1 has reached the V2 threshold height, else V1. -/
def nMaxAdjDown (p : ChainParams) (lastHeight : ℕ) : ℤ :=
  if p.blockDiffAdjustV2 ≤ lastHeight + 1 then p.maxAdjustDownV2 else p.maxAdjustDownV1

/-- Version-gated maximum upward adjustment (pow.cpp line 62). -/
def nMaxAdjUp (p : ChainParams) (lastHeight : ℕ) : ℤ :=
  if p.blockDiffAdjustV2 ≤ lastHeight + 1 then p.maxAdjustUpV2 else p.maxAdjustUpV1

/-- Lower timespan bound (pow.cpp line 63), with C-style truncating
division. -/
def nMinActualTimespan (p : ChainParams) (lastHeight : ℕ) : ℤ :=
  Int.tdiv (p.targetTimespan * (100 - nMaxAdjUp p lastHeight)) 100

/-- Upper timespan bound (pow.cpp line 64). -/
def nMaxActualTimespan (p : ChainParams) (lastHeight : ℕ) : ℤ :=
  Int.tdiv (p.targetTimespan * (100 + nMaxAdjDown p lastHeight)) 100

/-- The two-sided timespan clamp of GetNextWorkRequired (pow.cpp lines
66-69): raise to the lower bound, then cap at the upper bound. -/
def clampActualTimespan (p : ChainParams) (lastHeight : ℕ) (a : ℤ) : ℤ :=
  let a1 := if a < nMinActualTimespan p lastHeight then nMinActualTimespan p lastHeight else a
  if nMaxActualTimespan p lastHeight < a1 then nMaxActualTimespan p lastHeight else a1

/-- The overflow-safe retarget step of GetNextWorkRequired (pow.cpp lines
72-85): right-shift the target by 1 when its bit length exceeds 235,
multiply by the clamped actual timespan, divide by the target timespan,
and shift back; all uint256 arithmetic is modulo 2^256.  The clamped
timespan and the target timespan enter the unsigned arithmetic through
their non-negative value (Int.toNat). -/
def retargetTarget (p : ChainParams) (a : ℤ) (t : ℕ) : ℕ :=
  let fShift := 235 < uintBits t
  let t1 := if fShift then t >>> 1 else t
  let t2 := t1 * a.toNat % W256
  let t3 := t2 / p.targetTimespan.toNat
  if fShift then (t3 <<< 1) % W256 else t3

/-- The normal retarget path of GetNextWorkRequired (pow.cpp lines 46-94):
find the previous same-algorithm block, walk the averaging window back,
fall back to the limit when there is not enough same-algorithm history,
otherwise clamp the actual timespan, retarget the decoded previous target,
cap it at the algorithm limit and encode the result. -/
def GetNextWorkRequiredRetarget (p : ChainParams) (pindexLast : CBlockIndex) (algo : ℕ) : ℕ :=
  let nProofOfWorkLimit := getCompact (p.proofOfWorkLimit algo)
  let pindexPrev := GetLastBlockIndexForAlgo (some pindexLast) algo
  let nAveragingInterval : ℤ := Int.tdiv p.targetTimespan p.targetSpacing
  let pindexFirst := windowWalk algo pindexPrev (nAveragingInterval - 1).toNat
  match pindexPrev, pindexFirst with
  | some prev, some first =>
    let nActualTimespan :=
      clampActualTimespan p pindexLast.nHeight ((prev.nTime : ℤ) - (first.nTime : ℤ))
    let bnNew := retargetTarget p nActualTimespan (setCompactMag prev.nBits)
    let bnClamped := if p.proofOfWorkLimit algo < bnNew then p.proofOfWorkLimit algo else bnNew
    getCompact bnClamped
  | _, _ => nProofOfWorkLimit

/-- The body of GetNextWorkRequired past the historical override, for a
non-null pindexLast (pow.cpp lines 22-95): the testnet minimum-difficulty
rule when the network allows it, the normal retarget path otherwise. -/
def GetNextWorkRequiredMain (p : ChainParams) (pindexLast : CBlockIndex)
    (pblock : CBlockHeader) : ℕ :=
  let algo := pblock.nAlgo
  let nProofOfWorkLimit := getCompact (p.proofOfWorkLimit algo)
  if p.allowMinDifficultyBlocks then
    if (pindexLast.nTime : ℤ) + p.targetSpacing * 2 < (pblock.nTime : ℤ) then nProofOfWorkLimit
    else (minDiffWalk p.interval nProofOfWorkLimit pindexLast).nBits
  else GetNextWorkRequiredRetarget p pindexLast algo

/-- GetNextWorkRequired (pow.cpp lines 16-95).  The height-range override
at lines 18-20 dereferences pindexLast before the NULL test at line 26, so
a null pindexLast never reaches the genesis branch; the resulting
undefined behavior is modelled as none. -/
def GetNextWorkRequired (p : ChainParams) (pindexLast : Option CBlockIndex)
    (pblock : CBlockHeader) : Option ℕ :=
  match pindexLast with
  | none => none
  | some last =>
    if 915235 ≤ last.nHeight ∧ last.nHeight ≤ 955000 then some pblock.nBits
    else some (GetNextWorkRequiredMain p last pblock)

/-- CheckProofOfWork (pow.cpp lines 97-117): always true when the network
skips proof checking; otherwise reject a negative, zero, overflowing or
above-limit target, then reject a hash above the target. -/
def CheckProofOfWork (p : ChainParams) (hash : ℕ) (nBits : ℕ) (algo : ℕ) : Bool :=
  if p.skipProofOfWorkCheck then true
  else
    if setCompactNeg nBits || decide (setCompactMag nBits = 0) || setCompactOvf nBits ||
        decide (p.proofOfWorkLimit algo < setCompactMag nBits) then false
    else if decide (setCompactMag nBits < hash) then false
    else true

/-- GetBlockWork (pow.cpp lines 119-132): zero for a negative, overflowing
or zero target, otherwise (~target / (target + 1)) + 1 over uint256. -/
def GetBlockWork (block : CBlockIndex) : ℕ :=
  let bnTarget := setCompactMag block.nBits
  if setCompactNeg block.nBits || setCompactOvf block.nBits || decide (bnTarget = 0) then 0
  else ((W256 - 1 - bnTarget) / (bnTarget + 1) + 1) % W256

/-- GetBlockProof (pow.cpp lines 134-147): as GetBlockWork but multiplied
by the per-algorithm work factor (CBlockIndex::GetAlgoWorkFactor is not in
the excerpt; the factor is passed as a per-algorithm function, modelled
from the spec), over uint256. -/
def GetBlockProof (workFactor : ℕ → ℕ) (block : CBlockIndex) : ℕ :=
  let bnTarget := setCompactMag block.nBits
  if setCompactNeg block.nBits || setCompactOvf block.nBits || decide (bnTarget = 0) then 0
  else ((((W256 - 1 - bnTarget) / (bnTarget + 1) + 1) % W256) * workFactor block.nAlgo) % W256

/-- Concrete consensus parameters used for evaluating the theorems on
explicit inputs. -/
def testParams : ChainParams where
  proofOfWorkLimit := fun _ => 0x20000
  targetTimespan := 100
  targetSpacing := 10
  interval := 10
  allowMinDifficultyBlocks := false
  skipProofOfWorkCheck := false
  maxAdjustUpV1 := 16
  maxAdjustUpV2 := 10
  maxAdjustDownV1 := 32
  maxAdjustDownV2 := 20
  blockDiffAdjustV2 := 100

/-- Variant of the concrete parameters with testnet minimum-difficulty
blocks allowed. -/
def testParamsMin : ChainParams :=
  { testParams with allowMinDifficultyBlocks := true }

/-- Concrete single-algorithm chain of n + 1 blocks at heights 0..n,
timestamps spaced 10 apart, constant bits 0x03010000 (target 0x10000),
algorithm 0. -/
def mkChain : ℕ → CBlockIndex
  | 0 => .node 0 0 0x03010000 0 none
  | n + 1 => .node (n + 1) ((n + 1) * 10) 0x03010000 0 (some (mkChain n))

/-- Concrete three-block chain for the minimum-difficulty walk: two blocks
at the limit's compact encoding above one block with other bits. -/
def minDiffChain : CBlockIndex :=
  .node 2 20 0x03020000 0 (some (.node 1 10 0x03020000 0 (some (.node 0 0 0x0300AAAA 0 none))))

theorem uintBitsAux_le_iff (fuel : ℕ) : ∀ x, x ≤ fuel → ∀ n, (uintBitsAux fuel x ≤ n ↔ x < 2 ^ n) := by
  induction fuel with
  | zero =>
    intro x hx n
    interval_cases x
    simp [uintBitsAux]
  | succ f ih =>
    intro x hx n
    by_cases h0 : x = 0
    · subst h0
      simp [uintBitsAux]
    · have hdiv : x >>> 1 = x / 2 := by
        simp [Nat.shiftRight_eq_div_pow]
      have hle : x / 2 ≤ f := by omega
      cases n with
      | zero =>
        simp [uintBitsAux, h0]
      | succ m =>
        have := ih (x >>> 1) (by rw [hdiv]; exact hle) m
        simp only [uintBitsAux, h0, if_false]
        rw [Nat.succ_le_succ_iff, this, hdiv, pow_succ]
        rw [Nat.div_lt_iff_lt_mul (by norm_num : 0 < 2)]

theorem uintBits_le_iff (x n : ℕ) : uintBits x ≤ n ↔ x < 2 ^ n :=
  uintBitsAux_le_iff x x le_rfl n

theorem lt_two_pow_uintBits (x : ℕ) : x < 2 ^ uintBits x :=
  (uintBits_le_iff x (uintBits x)).mp le_rfl

theorem lor_high_shiftRight (c s : ℕ) (hc : c < 2 ^ 24) : (c ||| s <<< 24) >>> 24 = s := by
  have h1 : c ||| s <<< 24 = 2 ^ 24 * s + c := by
    rw [Nat.shiftLeft_eq, mul_comm s (2 ^ 24), Nat.lor_comm]
    exact (Nat.mul_add_lt_is_or hc s).symm
  rw [h1, Nat.shiftRight_eq_div_pow, Nat.mul_add_div (by norm_num), Nat.div_eq_of_lt hc,
    add_zero]

theorem lor_high_land (c s : ℕ) (hc : c < 2 ^ 23) : (c ||| s <<< 24) &&& 0x7fffff = c := by
  have hc24 : c < 2 ^ 24 := lt_trans hc (by norm_num)
  have h1 : c ||| s <<< 24 = 2 ^ 24 * s + c := by
    rw [Nat.shiftLeft_eq, mul_comm s (2 ^ 24), Nat.lor_comm]
    exact (Nat.mul_add_lt_is_or hc24 s).symm
  have h2 : (0x7fffff : ℕ) = 2 ^ 23 - 1 := by norm_num
  rw [h1, h2, Nat.and_pow_two_sub_one_eq_mod]
  have h3 : 2 ^ 24 * s = 2 ^ 23 * (2 * s) := by ring
  rw [h3, Nat.mul_add_mod, Nat.mod_eq_of_lt hc]

theorem uintBits_le_mul_compactSize (x : ℕ) : uintBits x ≤ 8 * compactSize x := by
  unfold compactSize
  omega

theorem lt_two_pow_compactSize (x : ℕ) : x < 2 ^ (8 * compactSize x) :=
  lt_of_lt_of_le (lt_two_pow_uintBits x)
    (Nat.pow_le_pow_right (by norm_num) (uintBits_le_mul_compactSize x))

theorem compactC0_lt (x : ℕ) : compactC0 x < 2 ^ 24 := by
  unfold compactC0
  by_cases h : compactSize x ≤ 3
  · rw [if_pos h, Nat.shiftLeft_eq]
    calc x * 2 ^ (8 * (3 - compactSize x))
        < 2 ^ (8 * compactSize x) * 2 ^ (8 * (3 - compactSize x)) := by
          exact (Nat.mul_lt_mul_right (Nat.pos_pow_of_pos _ (by norm_num))).mpr
            (lt_two_pow_compactSize x)
      _ = 2 ^ 24 := by
          rw [← pow_add]
          congr 1
          omega
  · rw [if_neg h, Nat.shiftRight_eq_div_pow]
    rw [Nat.div_lt_iff_lt_mul (Nat.pos_pow_of_pos _ (by norm_num))]
    calc x < 2 ^ (8 * compactSize x) := lt_two_pow_compactSize x
      _ = 2 ^ 24 * 2 ^ (8 * (compactSize x - 3)) := by
          rw [← pow_add]
          congr 1
          omega

theorem land_bit23_zero_lt (c : ℕ) (h24 : c < 2 ^ 24) (h : c &&& 0x800000 = 0) : c < 2 ^ 23 := by
  have h2 : (0x800000 : ℕ) = 2 ^ 23 := by norm_num
  rw [h2, Nat.and_two_pow] at h
  have h3 : c.testBit 23 = false := by
    by_contra hb
    simp only [Bool.not_eq_false] at hb
    rw [hb] at h
    norm_num at h
  rw [Nat.testBit_to_div_mod] at h3
  simp only [decide_eq_false_iff_not] at h3
  have h4 : c / 2 ^ 23 < 2 := by
    rw [Nat.div_lt_iff_lt_mul (Nat.pos_pow_of_pos _ (by norm_num))]
    calc c < 2 ^ 24 := h24
      _ = 2 * 2 ^ 23 := by ring
  have h5 : c / 2 ^ 23 = 0 := by
    generalize hd : c / 2 ^ 23 = d at h3 h4
    omega
  exact (Nat.div_eq_zero_iff (Nat.pos_pow_of_pos _ (by norm_num))).mp h5

theorem shiftRight_shiftLeft_le (x m : ℕ) : (x >>> m) <<< m ≤ x := by
  rw [Nat.shiftLeft_eq, Nat.shiftRight_eq_div_pow]
  exact Nat.div_mul_le_self x (2 ^ m)

theorem setCompactMag_getCompact_le (x : ℕ) : setCompactMag (getCompact x) ≤ x := by
  have hc0lt : compactC0 x < 2 ^ 24 := compactC0_lt x
  by_cases hbit : compactC0 x &&& 0x00800000 ≠ 0
  · have hget : getCompact x = (compactC0 x >>> 8) ||| ((compactSize x + 1) <<< 24) := by
      rw [getCompact, if_pos hbit]
    have hc1lt : compactC0 x >>> 8 < 2 ^ 23 := by
      rw [Nat.shiftRight_eq_div_pow]
      rw [Nat.div_lt_iff_lt_mul (Nat.pos_pow_of_pos _ (by norm_num))]
      calc compactC0 x < 2 ^ 24 := hc0lt
        _ ≤ 2 ^ 23 * 2 ^ 8 := by norm_num
    have hc1lt24 : compactC0 x >>> 8 < 2 ^ 24 := lt_trans hc1lt (by norm_num)
    rw [setCompactMag, hget, lor_high_shiftRight _ _ hc1lt24, lor_high_land _ _ hc1lt]
    by_cases hs3 : compactSize x + 1 ≤ 3
    · rw [if_pos hs3]
      have hc0 : compactC0 x = x <<< (8 * (3 - compactSize x)) := by
        rw [compactC0, if_pos (by omega)]
      have harith : 8 * (3 - compactSize x) = 8 + 8 * (3 - (compactSize x + 1)) := by omega
      rw [hc0, ← Nat.shiftRight_add, ← harith, Nat.shiftLeft_shiftRight]
    · rw [if_neg hs3]
      refine le_trans (Nat.mod_le _ _) ?_
      by_cases hs : compactSize x ≤ 3
      · have hseq : compactSize x = 3 := by omega
        have hc0 : compactC0 x = x := by
          rw [compactC0, if_pos hs, hseq]
          simp
        have harith : 8 * (compactSize x + 1 - 3) = 8 := by omega
        rw [hc0, harith]
        exact shiftRight_shiftLeft_le x 8
      · have hc0 : compactC0 x = x >>> (8 * (compactSize x - 3)) := by
          rw [compactC0, if_neg hs]
        have harith : 8 * (compactSize x - 3) + 8 = 8 * (compactSize x + 1 - 3) := by omega
        rw [hc0, ← Nat.shiftRight_add, harith]
        exact shiftRight_shiftLeft_le x _
  · push_neg at hbit
    have hc1 : compactC0 x < 2 ^ 23 := land_bit23_zero_lt _ hc0lt hbit
    have hget : getCompact x = compactC0 x ||| (compactSize x <<< 24) := by
      rw [getCompact, if_neg (by simpa using hbit)]
    rw [setCompactMag, hget, lor_high_shiftRight _ _ hc0lt, lor_high_land _ _ hc1]
    by_cases hs3 : compactSize x ≤ 3
    · rw [if_pos hs3]
      have hc0 : compactC0 x = x <<< (8 * (3 - compactSize x)) := by
        rw [compactC0, if_pos hs3]
      rw [hc0, Nat.shiftLeft_shiftRight]
    · rw [if_neg hs3]
      refine le_trans (Nat.mod_le _ _) ?_
      have hc0 : compactC0 x = x >>> (8 * (compactSize x - 3)) := by
        rw [compactC0, if_neg hs3]
      rw [hc0]
      exact shiftRight_shiftLeft_le x _

theorem setCompactMag_lt (c : ℕ) : setCompactMag c < W256 := by
  rw [setCompactMag]
  by_cases h : c >>> 24 ≤ 3
  · rw [if_pos h]
    calc (c &&& 0x007fffff) >>> (8 * (3 - c >>> 24))
        ≤ c &&& 0x007fffff := by
          rw [Nat.shiftRight_eq_div_pow]
          exact Nat.div_le_self _ _
      _ ≤ 0x7fffff := by
          have h2 : (0x7fffff : ℕ) = 2 ^ 23 - 1 := by norm_num
          rw [h2, Nat.and_pow_two_sub_one_eq_mod]
          have := Nat.mod_lt c (y := 2 ^ 23) (by norm_num)
          omega
      _ < W256 := by norm_num [W256]
  · rw [if_neg h]
    exact Nat.mod_lt _ (by norm_num [W256])

theorem work_div_identity (t : ℕ) (h0 : 0 < t) (hlt : t < W256) :
    (W256 - 1 - t) / (t + 1) + 1 = W256 / (t + 1) := by
  have hd : 0 < t + 1 := by omega
  obtain ⟨q, r, hqr, hr⟩ : ∃ q r, W256 = (t + 1) * q + r ∧ r < t + 1 :=
    ⟨W256 / (t + 1), W256 % (t + 1), by rw [Nat.div_add_mod], Nat.mod_lt _ hd⟩
  have hq1 : 1 ≤ q := by
    by_contra hq
    push_neg at hq
    interval_cases q
    omega
  obtain ⟨q0, rfl⟩ : ∃ q0, q = q0 + 1 := ⟨q - 1, by omega⟩
  have hsub : W256 - 1 - t = (t + 1) * q0 + r := by
    have : (t + 1) * (q0 + 1) = (t + 1) * q0 + (t + 1) := by ring
    omega
  have hdivq : W256 / (t + 1) = q0 + 1 := by
    rw [hqr, Nat.mul_add_div hd, Nat.div_eq_of_lt hr, add_zero]
  rw [hsub, hdivq, Nat.mul_add_div hd, Nat.div_eq_of_lt hr, add_zero]

theorem GetBlockWork_valid (block : CBlockIndex)
    (hn : setCompactNeg block.nBits = false) (ho : setCompactOvf block.nBits = false)
    (hz : setCompactMag block.nBits ≠ 0) :
    GetBlockWork block = W256 / (setCompactMag block.nBits + 1) := by
  have hlt : setCompactMag block.nBits < W256 := setCompactMag_lt block.nBits
  have hid := work_div_identity (setCompactMag block.nBits) (by omega) hlt
  have hsmall : W256 / (setCompactMag block.nBits + 1) < W256 := by
    calc W256 / (setCompactMag block.nBits + 1) ≤ W256 / 2 :=
          Nat.div_le_div_left (by omega) (by norm_num)
      _ < W256 := by norm_num [W256]
  rw [GetBlockWork]
  simp only [hn, ho, hz, Bool.false_or, decide_eq_true_eq, if_neg, Bool.or_self]
  rw [if_neg (by simp [hz]), hid, Nat.mod_eq_of_lt hsmall]

theorem GetBlockProof_valid (workFactor : ℕ → ℕ) (block : CBlockIndex)
    (hn : setCompactNeg block.nBits = false) (ho : setCompactOvf block.nBits = false)
    (hz : setCompactMag block.nBits ≠ 0) :
    GetBlockProof workFactor block =
      W256 / (setCompactMag block.nBits + 1) * workFactor block.nAlgo % W256 := by
  have hlt : setCompactMag block.nBits < W256 := setCompactMag_lt block.nBits
  have hid := work_div_identity (setCompactMag block.nBits) (by omega) hlt
  have hsmall : W256 / (setCompactMag block.nBits + 1) < W256 := by
    calc W256 / (setCompactMag block.nBits + 1) ≤ W256 / 2 :=
          Nat.div_le_div_left (by omega) (by norm_num)
      _ < W256 := by norm_num [W256]
  rw [GetBlockProof]
  rw [if_neg (by simp [hn, ho, hz]), hid, Nat.mod_eq_of_lt hsmall]

/-- C1: CheckProofOfWork succeeds always under the skip flag, and otherwise
exactly when the decoded target is well-formed (not negative, not
overflowing, nonzero), within the algorithm limit, and at least the hash;
a zero target or a target one above the limit fails for every hash. -/
theorem checkProofOfWork_spec (p : ChainParams) (hash nBits algo : ℕ) :
    (CheckProofOfWork p hash nBits algo = true ↔
      (p.skipProofOfWorkCheck = true ∨
        (setCompactNeg nBits = false ∧ setCompactOvf nBits = false ∧
          setCompactMag nBits ≠ 0 ∧ setCompactMag nBits ≤ p.proofOfWorkLimit algo ∧
          hash ≤ setCompactMag nBits))) ∧
    (p.skipProofOfWorkCheck = false →
      (setCompactMag nBits = 0 ∨ setCompactMag nBits = p.proofOfWorkLimit algo + 1) →
      CheckProofOfWork p hash nBits algo = false) := by
  constructor
  · unfold CheckProofOfWork
    cases hskip : p.skipProofOfWorkCheck <;>
      cases hneg : setCompactNeg nBits <;>
      cases hovf : setCompactOvf nBits <;>
      simp [hskip, hneg, hovf]
    tauto
  · intro hskip hcase
    unfold CheckProofOfWork
    rw [if_neg (by simp [hskip])]
    rw [if_pos]
    rcases hcase with h | h <;> simp [h]

/-- C3: for a last-block height in the inclusive override range
[915235, 955000], GetNextWorkRequired returns the candidate header's own
claimed bits; at the heights just outside the range the normal body is
used. -/
theorem nextWork_heightOverride (p : ChainParams) (last : CBlockIndex) (hdr : CBlockHeader) :
    (915235 ≤ last.nHeight ∧ last.nHeight ≤ 955000 →
      GetNextWorkRequired p (some last) hdr = some hdr.nBits) ∧
    ((last.nHeight = 915234 ∨ last.nHeight = 955001) →
      GetNextWorkRequired p (some last) hdr = some (GetNextWorkRequiredMain p last hdr)) := by
  constructor
  · intro h
    simp [GetNextWorkRequired, h]
  · intro h
    have hno : ¬(915235 ≤ last.nHeight ∧ last.nHeight ≤ 955000) := by omega
    simp [GetNextWorkRequired, hno]

/-- C4: with an absent last block, GetNextWorkRequired dereferences the
null pointer in the height-range check before the genesis NULL test, so it
does not return the compact-encoded limit: the call has no defined result
(modelled as none). -/
theorem nextWork_genesis_crash (p : ChainParams) (hdr : CBlockHeader) :
    GetNextWorkRequired p none hdr = none ∧
    GetNextWorkRequired p none hdr ≠ some (getCompact (p.proofOfWorkLimit hdr.nAlgo)) :=
  ⟨rfl, by simp [GetNextWorkRequired]⟩

/-- C10: outside the override range, with minimum-difficulty blocks not
allowed, the result of GetNextWorkRequired does not depend on the
candidate header's timestamp or claimed bits, only on its algorithm id. -/
theorem nextWork_headerIndependence (p : ChainParams) (last : CBlockIndex)
    (hdr1 hdr2 : CBlockHeader)
    (hMin : p.allowMinDifficultyBlocks = false)
    (hOv : ¬(915235 ≤ last.nHeight ∧ last.nHeight ≤ 955000))
    (hAlgo : hdr1.nAlgo = hdr2.nAlgo) :
    GetNextWorkRequired p (some last) hdr1 = GetNextWorkRequired p (some last) hdr2 := by
  simp [GetNextWorkRequired, hOv, GetNextWorkRequiredMain, hMin, hAlgo]

/-- C8: GetBlockWork is zero for a negative, overflowing or zero target and
otherwise equals floor(2^256 / (target + 1)); GetBlockProof is the same
quantity multiplied by the per-algorithm work factor over uint256. -/
theorem blockWork_blockProof_formula (workFactor : ℕ → ℕ) (block : CBlockIndex) :
    ((setCompactNeg block.nBits = true ∨ setCompactOvf block.nBits = true ∨
        setCompactMag block.nBits = 0) →
      GetBlockWork block = 0 ∧ GetBlockProof workFactor block = 0) ∧
    (setCompactNeg block.nBits = false → setCompactOvf block.nBits = false →
      setCompactMag block.nBits ≠ 0 →
      GetBlockWork block = W256 / (setCompactMag block.nBits + 1) ∧
      GetBlockProof workFactor block =
        W256 / (setCompactMag block.nBits + 1) * workFactor block.nAlgo % W256) := by
  constructor
  · intro h
    constructor
    · rw [GetBlockWork]
      rw [if_pos]
      rcases h with h | h | h <;> simp [h]
    · rw [GetBlockProof]
      rw [if_pos]
      rcases h with h | h | h <;> simp [h]
  · intro hn ho hz
    exact ⟨GetBlockWork_valid block hn ho hz, GetBlockProof_valid workFactor block hn ho hz⟩

/-- C9 counterexample: the targets 2^255 and 2^255 + 2^240 are both valid,
nonzero, exactly compactly representable and ordered, yet the block work
of the smaller target's encoding is not strictly greater than that of the
larger one (both equal 1). -/
theorem blockWork_strict_cex :
    0 < (2 ^ 255 : ℕ) ∧ (2 ^ 255 : ℕ) < 2 ^ 255 + 2 ^ 240 ∧
    getCompact (2 ^ 255) = 0x21008000 ∧ getCompact (2 ^ 255 + 2 ^ 240) = 0x21008001 ∧
    setCompactMag 0x21008000 = 2 ^ 255 ∧ setCompactMag 0x21008001 = 2 ^ 255 + 2 ^ 240 ∧
    setCompactNeg 0x21008000 = false ∧ setCompactOvf 0x21008000 = false ∧
    setCompactNeg 0x21008001 = false ∧ setCompactOvf 0x21008001 = false ∧
    ¬(GetBlockWork (CBlockIndex.node 0 0 0x21008001 0 none) <
      GetBlockWork (CBlockIndex.node 0 0 0x21008000 0 none)) := by
  decide

/-- C9 (amended): for valid, nonzero, exactly representable targets
t1 < t2, the block work of t1's encoding is at least (not necessarily
strictly greater than) that of t2's encoding. -/
theorem blockWork_antitone (t1 t2 : ℕ)
    (h1 : 0 < t1) (h12 : t1 < t2)
    (hm1 : setCompactMag (getCompact t1) = t1) (hm2 : setCompactMag (getCompact t2) = t2)
    (hn1 : setCompactNeg (getCompact t1) = false) (ho1 : setCompactOvf (getCompact t1) = false)
    (hn2 : setCompactNeg (getCompact t2) = false) (ho2 : setCompactOvf (getCompact t2) = false) :
    GetBlockWork (CBlockIndex.node 0 0 (getCompact t2) 0 none) ≤
      GetBlockWork (CBlockIndex.node 0 0 (getCompact t1) 0 none) := by
  have e1 : GetBlockWork (CBlockIndex.node 0 0 (getCompact t1) 0 none) = W256 / (t1 + 1) := by
    have := GetBlockWork_valid (CBlockIndex.node 0 0 (getCompact t1) 0 none)
      (by simpa [CBlockIndex.nBits] using hn1) (by simpa [CBlockIndex.nBits] using ho1)
      (by simp [CBlockIndex.nBits, hm1]; omega)
    simpa [CBlockIndex.nBits, hm1] using this
  have e2 : GetBlockWork (CBlockIndex.node 0 0 (getCompact t2) 0 none) = W256 / (t2 + 1) := by
    have := GetBlockWork_valid (CBlockIndex.node 0 0 (getCompact t2) 0 none)
      (by simpa [CBlockIndex.nBits] using hn2) (by simpa [CBlockIndex.nBits] using ho2)
      (by simp [CBlockIndex.nBits, hm2]; omega)
    simpa [CBlockIndex.nBits, hm2] using this
  rw [e1, e2]
  exact Nat.div_le_div_left (by omega) (by omega)

theorem windowWalk_none (algo k : ℕ) : windowWalk algo none k = none := by
  cases k <;> rfl

theorem minDiffWalk_stop (nI lc : ℕ) :
    ∀ b : CBlockIndex, (minDiffWalk nI lc b).pprev = none ∨
      (minDiffWalk nI lc b).nHeight % nI = 0 ∨ (minDiffWalk nI lc b).nBits ≠ lc
  | .node h t bb a none => by
    simp [minDiffWalk, CBlockIndex.pprev]
  | .node h t bb a (some q) => by
    by_cases hc : h % nI ≠ 0 ∧ bb = lc
    · rw [show minDiffWalk nI lc (.node h t bb a (some q)) = minDiffWalk nI lc q by
        simp [minDiffWalk, hc]]
      exact minDiffWalk_stop nI lc q
    · rw [show minDiffWalk nI lc (.node h t bb a (some q)) = .node h t bb a (some q) by
        simp [minDiffWalk, hc]]
      simp [CBlockIndex.pprev, CBlockIndex.nHeight, CBlockIndex.nBits]
      tauto

/-- C2: on the normal retarget path, GetNextWorkRequired returns the
compact encoding of the clamped retargeted previous target, and every
returned value decodes to at most the algorithm's limit. -/
theorem nextWork_retarget_formula (p : ChainParams) (last prev first : CBlockIndex)
    (hdr : CBlockHeader)
    (hOv : ¬(915235 ≤ last.nHeight ∧ last.nHeight ≤ 955000))
    (hMin : p.allowMinDifficultyBlocks = false)
    (hPrev : GetLastBlockIndexForAlgo (some last) hdr.nAlgo = some prev)
    (hFirst : windowWalk hdr.nAlgo (some prev)
      (Int.tdiv p.targetTimespan p.targetSpacing - 1).toNat = some first) :
    GetNextWorkRequired p (some last) hdr =
      some (getCompact
        (if p.proofOfWorkLimit hdr.nAlgo <
            retargetTarget p
              (clampActualTimespan p last.nHeight ((prev.nTime : ℤ) - (first.nTime : ℤ)))
              (setCompactMag prev.nBits)
        then p.proofOfWorkLimit hdr.nAlgo
        else
          retargetTarget p
            (clampActualTimespan p last.nHeight ((prev.nTime : ℤ) - (first.nTime : ℤ)))
            (setCompactMag prev.nBits))) ∧
    (∀ r, GetNextWorkRequired p (some last) hdr = some r →
      setCompactMag r ≤ p.proofOfWorkLimit hdr.nAlgo) := by
  have hmain : GetNextWorkRequired p (some last) hdr =
      some (getCompact
        (if p.proofOfWorkLimit hdr.nAlgo <
            retargetTarget p
              (clampActualTimespan p last.nHeight ((prev.nTime : ℤ) - (first.nTime : ℤ)))
              (setCompactMag prev.nBits)
        then p.proofOfWorkLimit hdr.nAlgo
        else
          retargetTarget p
            (clampActualTimespan p last.nHeight ((prev.nTime : ℤ) - (first.nTime : ℤ)))
            (setCompactMag prev.nBits))) := by
    simp only [GetNextWorkRequired, GetNextWorkRequiredMain, GetNextWorkRequiredRetarget]
    rw [if_neg hOv, hMin]
    simp only [Bool.false_eq_true, if_false, hPrev, hFirst]
  refine ⟨hmain, ?_⟩
  intro r hr
  rw [hmain] at hr
  have hreq : r = getCompact
      (if p.proofOfWorkLimit hdr.nAlgo <
          retargetTarget p
            (clampActualTimespan p last.nHeight ((prev.nTime : ℤ) - (first.nTime : ℤ)))
            (setCompactMag prev.nBits)
      then p.proofOfWorkLimit hdr.nAlgo
      else
        retargetTarget p
          (clampActualTimespan p last.nHeight ((prev.nTime : ℤ) - (first.nTime : ℤ)))
          (setCompactMag prev.nBits)) := by
    injection hr.symm
  rw [hreq]
  refine le_trans (setCompactMag_getCompact_le _) ?_
  split_ifs with hcl
  · exact le_rfl
  · omega

/-- C5: the adjustment bounds are taken from the V2 rule set exactly when
lastHeight + 1 has reached the V2 threshold, the timespan bounds are the
truncated percentage formulas, and the clamp confines the actual timespan
to the closed interval between them (and is the identity inside it). -/
theorem retarget_bounds_clamp (p : ChainParams) (lastHeight : ℕ) (a : ℤ) :
    (p.blockDiffAdjustV2 ≤ lastHeight + 1 →
      nMaxAdjUp p lastHeight = p.maxAdjustUpV2 ∧
      nMaxAdjDown p lastHeight = p.maxAdjustDownV2) ∧
    (lastHeight + 1 < p.blockDiffAdjustV2 →
      nMaxAdjUp p lastHeight = p.maxAdjustUpV1 ∧
      nMaxAdjDown p lastHeight = p.maxAdjustDownV1) ∧
    nMinActualTimespan p lastHeight =
      Int.tdiv (p.targetTimespan * (100 - nMaxAdjUp p lastHeight)) 100 ∧
    nMaxActualTimespan p lastHeight =
      Int.tdiv (p.targetTimespan * (100 + nMaxAdjDown p lastHeight)) 100 ∧
    (nMinActualTimespan p lastHeight ≤ nMaxActualTimespan p lastHeight →
      nMinActualTimespan p lastHeight ≤ clampActualTimespan p lastHeight a ∧
      clampActualTimespan p lastHeight a ≤ nMaxActualTimespan p lastHeight ∧
      (nMinActualTimespan p lastHeight ≤ a → a ≤ nMaxActualTimespan p lastHeight →
        clampActualTimespan p lastHeight a = a)) := by
  refine ⟨?_, ?_, rfl, rfl, ?_⟩
  · intro h
    exact ⟨by rw [nMaxAdjUp, if_pos h], by rw [nMaxAdjDown, if_pos h]⟩
  · intro h
    exact ⟨by rw [nMaxAdjUp, if_neg (by omega)], by rw [nMaxAdjDown, if_neg (by omega)]⟩
  · intro h
    refine ⟨?_, ?_, ?_⟩ <;> simp only [clampActualTimespan] <;> split_ifs <;> omega

/-- C6: with minimum-difficulty blocks allowed (outside the override
range), a candidate more than twice the target spacing after the last
block gets the limit, and otherwise the bits of the node where the
minimum-difficulty walk stops; the walk stops only at a node with no
parent, at an interval boundary, or with bits different from the limit's
encoding. -/
theorem nextWork_minDifficulty (p : ChainParams) (last : CBlockIndex) (hdr : CBlockHeader)
    (hOv : ¬(915235 ≤ last.nHeight ∧ last.nHeight ≤ 955000))
    (hMin : p.allowMinDifficultyBlocks = true) :
    ((last.nTime : ℤ) + p.targetSpacing * 2 < (hdr.nTime : ℤ) →
      GetNextWorkRequired p (some last) hdr =
        some (getCompact (p.proofOfWorkLimit hdr.nAlgo))) ∧
    (¬((last.nTime : ℤ) + p.targetSpacing * 2 < (hdr.nTime : ℤ)) →
      GetNextWorkRequired p (some last) hdr =
        some ((minDiffWalk p.interval (getCompact (p.proofOfWorkLimit hdr.nAlgo)) last).nBits)) ∧
    (∀ nI lc b, (minDiffWalk nI lc b).pprev = none ∨
      (minDiffWalk nI lc b).nHeight % nI = 0 ∨ (minDiffWalk nI lc b).nBits ≠ lc) := by
  refine ⟨?_, ?_, fun nI lc b => minDiffWalk_stop nI lc b⟩
  · intro h
    simp [GetNextWorkRequired, hOv, GetNextWorkRequiredMain, hMin, h]
  · intro h
    simp [GetNextWorkRequired, hOv, GetNextWorkRequiredMain, hMin, h]

/-- C7: on the normal path, when the averaging-window walk runs out of
same-algorithm ancestors (including when there is no same-algorithm
previous block at all), GetNextWorkRequired returns the compact-encoded
limit rather than an error. -/
theorem nextWork_insufficientHistory (p : ChainParams) (last : CBlockIndex) (hdr : CBlockHeader)
    (hOv : ¬(915235 ≤ last.nHeight ∧ last.nHeight ≤ 955000))
    (hMin : p.allowMinDifficultyBlocks = false) :
    (windowWalk hdr.nAlgo (GetLastBlockIndexForAlgo (some last) hdr.nAlgo)
        (Int.tdiv p.targetTimespan p.targetSpacing - 1).toNat = none →
      GetNextWorkRequired p (some last) hdr =
        some (getCompact (p.proofOfWorkLimit hdr.nAlgo))) ∧
    (GetLastBlockIndexForAlgo (some last) hdr.nAlgo = none →
      GetNextWorkRequired p (some last) hdr =
        some (getCompact (p.proofOfWorkLimit hdr.nAlgo))) := by
  have hpart : windowWalk hdr.nAlgo (GetLastBlockIndexForAlgo (some last) hdr.nAlgo)
      (Int.tdiv p.targetTimespan p.targetSpacing - 1).toNat = none →
      GetNextWorkRequired p (some last) hdr =
        some (getCompact (p.proofOfWorkLimit hdr.nAlgo)) := by
    intro h
    simp only [GetNextWorkRequired, GetNextWorkRequiredMain, GetNextWorkRequiredRetarget]
    rw [if_neg hOv, hMin]
    cases hp : GetLastBlockIndexForAlgo (some last) hdr.nAlgo with
    | none => simp [hp]
    | some prev =>
      rw [hp] at h
      rw [h]
      simp
  refine ⟨hpart, fun h => hpart ?_⟩
  rw [h]
  exact windowWalk_none _ _

theorem checkProofOfWork_spec_witness :
    CheckProofOfWork testParams 5 0x03000000 0 = false ∧
    CheckProofOfWork testParams 0 0x03020001 0 = false ∧
    CheckProofOfWork testParams 0x1234 0x03010000 0 = true :=
  ⟨(checkProofOfWork_spec testParams 5 0x03000000 0).2 rfl (Or.inl (by decide)),
    (checkProofOfWork_spec testParams 0 0x03020001 0).2 rfl (Or.inr (by decide)),
    ((checkProofOfWork_spec testParams 0x1234 0x03010000 0).1).mpr (Or.inr (by decide))⟩

theorem nextWork_retarget_formula_witness :
    GetNextWorkRequired testParams (some (mkChain 9)) ⟨100, 0, 0⟩ = some 0x0300E666 ∧
    setCompactMag 0x0300E666 ≤ testParams.proofOfWorkLimit 0 := by
  have h := nextWork_retarget_formula testParams (mkChain 9) (mkChain 9) (mkChain 0)
    ⟨100, 0, 0⟩ (by decide) rfl rfl rfl
  exact ⟨h.1.trans (by decide), h.2 0x0300E666 (h.1.trans (by decide))⟩

theorem nextWork_heightOverride_witness :
    GetNextWorkRequired testParams (some (.node 915235 0 7 0 none)) ⟨0, 0x1234, 0⟩ =
      some 0x1234 ∧
    GetNextWorkRequired testParams (some (.node 955000 0 7 0 none)) ⟨0, 0x1234, 0⟩ =
      some 0x1234 ∧
    GetNextWorkRequired testParams (some (.node 915234 0 7 0 none)) ⟨0, 0x1234, 0⟩ =
      some 0x03020000 ∧
    GetNextWorkRequired testParams (some (.node 955001 0 7 0 none)) ⟨0, 0x1234, 0⟩ =
      some 0x03020000 :=
  ⟨(nextWork_heightOverride testParams (.node 915235 0 7 0 none) ⟨0, 0x1234, 0⟩).1
      (by decide),
    (nextWork_heightOverride testParams (.node 955000 0 7 0 none) ⟨0, 0x1234, 0⟩).1
      (by decide),
    ((nextWork_heightOverride testParams (.node 915234 0 7 0 none) ⟨0, 0x1234, 0⟩).2
      (Or.inl rfl)).trans (by decide),
    ((nextWork_heightOverride testParams (.node 955001 0 7 0 none) ⟨0, 0x1234, 0⟩).2
      (Or.inr rfl)).trans (by decide)⟩

theorem retarget_bounds_clamp_witness :
    nMaxAdjUp testParams 9 = 16 ∧ nMaxAdjDown testParams 9 = 32 ∧
    nMinActualTimespan testParams 9 = 84 ∧ nMaxActualTimespan testParams 9 = 132 ∧
    nMinActualTimespan testParams 9 ≤ clampActualTimespan testParams 9 200 ∧
    clampActualTimespan testParams 9 200 ≤ nMaxActualTimespan testParams 9 ∧
    clampActualTimespan testParams 9 90 = 90 := by
  have h := retarget_bounds_clamp testParams 9 200
  have h90 := retarget_bounds_clamp testParams 9 90
  refine ⟨((h.2.1 (by decide)).1).trans (by decide), ((h.2.1 (by decide)).2).trans (by decide),
    (by decide), (by decide), ?_, ?_, ?_⟩
  · exact (h.2.2.2.2 (by decide)).1
  · exact (h.2.2.2.2 (by decide)).2.1
  · exact (h90.2.2.2.2 (by decide)).2.2 (by decide) (by decide)

theorem nextWork_minDifficulty_witness :
    GetNextWorkRequired testParamsMin (some minDiffChain) ⟨100, 0, 0⟩ = some 0x03020000 ∧
    GetNextWorkRequired testParamsMin (some minDiffChain) ⟨25, 0, 0⟩ = some 0x0300AAAA := by
  have h1 := nextWork_minDifficulty testParamsMin minDiffChain ⟨100, 0, 0⟩ (by decide) rfl
  have h2 := nextWork_minDifficulty testParamsMin minDiffChain ⟨25, 0, 0⟩ (by decide) rfl
  exact ⟨(h1.1 (by decide)).trans (by decide), (h2.2.1 (by decide)).trans (by decide)⟩

theorem nextWork_insufficientHistory_witness :
    GetNextWorkRequired testParams (some (mkChain 2)) ⟨100, 0, 0⟩ = some 0x03020000 ∧
    GetNextWorkRequired testParams (some (mkChain 9)) ⟨100, 0, 1⟩ = some 0x03020000 := by
  have h1 := nextWork_insufficientHistory testParams (mkChain 2) ⟨100, 0, 0⟩ (by decide) rfl
  have h2 := nextWork_insufficientHistory testParams (mkChain 9) ⟨100, 0, 1⟩ (by decide) rfl
  exact ⟨(h1.1 rfl).trans (by decide), (h2.2 rfl).trans (by decide)⟩

theorem blockWork_blockProof_formula_witness :
    GetBlockWork (CBlockIndex.node 0 0 0x03010000 0 none) = W256 / 0x10001 ∧
    GetBlockProof (fun _ => 3) (CBlockIndex.node 0 0 0x03010000 0 none) =
      W256 / 0x10001 * 3 % W256 ∧
    GetBlockWork (CBlockIndex.node 0 0 0 0 none) = 0 ∧
    GetBlockProof (fun _ => 3) (CBlockIndex.node 0 0 0 0 none) = 0 := by
  have h1 := blockWork_blockProof_formula (fun _ => 3) (CBlockIndex.node 0 0 0x03010000 0 none)
  have h2 := blockWork_blockProof_formula (fun _ => 3) (CBlockIndex.node 0 0 0 0 none)
  have hv := h1.2 rfl rfl (by decide)
  have hz := h2.1 (Or.inr (Or.inr (by decide)))
  exact ⟨hv.1.trans (by decide), hv.2.trans (by decide), hz.1, hz.2⟩

theorem blockWork_antitone_witness :
    GetBlockWork (CBlockIndex.node 0 0 (getCompact 0x20000) 0 none) ≤
      GetBlockWork (CBlockIndex.node 0 0 (getCompact 0x10000) 0 none) :=
  blockWork_antitone 0x10000 0x20000 (by decide) (by decide) (by decide) (by decide)
    (by decide) (by decide) (by decide) (by decide)

theorem nextWork_headerIndependence_witness :
    GetNextWorkRequired testParams (some (mkChain 9)) ⟨5, 1, 0⟩ =
      GetNextWorkRequired testParams (some (mkChain 9)) ⟨99, 0x12345, 0⟩ :=
  nextWork_headerIndependence testParams (mkChain 9) ⟨5, 1, 0⟩ ⟨99, 0x12345, 0⟩ rfl
    (by decide) rfl
